import Mathlib

/-!
Verification development for the koradi-dl crawl-and-download pipeline.

The Go program is shallowly embedded: pure helpers (`removeDuplicates`,
the suffix predicates, `filepath.Base`) become Lean functions on
`String`/`List`; the scrapers become functions from a modelled HTTP
response (token stream plus terminal condition) to `Except`; the
per-language downloader loop becomes explicit state passing over a
filesystem model (the set of existing local paths); the bubbletea
progress model becomes a fold over progress events.
-/

/-- Embeds `removeDuplicates` from helpers.go: the Go map
`encountered` is modelled as the list of strings inserted so far
(membership test only), `result` is the accumulator. -/
def removeDuplicatesAux (encountered : List String) (result : List String) :
    List String → List String
  | [] => result
  | value :: rest =>
    if value ∈ encountered then
      removeDuplicatesAux encountered result rest
    else
      removeDuplicatesAux (value :: encountered) (result ++ [value]) rest

/-- Embeds `removeDuplicates(input []string) []string` from helpers.go. -/
def removeDuplicates (input : List String) : List String :=
  removeDuplicatesAux [] [] input

/-- Non-accumulator form of the dedup loop, used to reason about
`removeDuplicatesAux`. -/
def dedupFirst (seen : List String) : List String → List String
  | [] => []
  | v :: rest =>
    if v ∈ seen then dedupFirst seen rest
    else v :: dedupFirst (v :: seen) rest

/-- Spec-side definition, following the spec's words: the sequence
restricted to first occurrences; an element is kept exactly when it does
not occur among the elements before it (`earlier` is that prefix). -/
def firstOccurrencesAux (earlier : List String) : List String → List String
  | [] => []
  | v :: rest =>
    if v ∈ earlier then firstOccurrencesAux (earlier ++ [v]) rest
    else v :: firstOccurrencesAux (earlier ++ [v]) rest

/-- Spec-side definition: the subsequence of `S` restricted to the first
occurrence of each element. -/
def firstOccurrences (S : List String) : List String :=
  firstOccurrencesAux [] S

/-- Embeds Go `strings.HasSuffix(s, suffix)`: length guard plus
equality of the trailing slice (character-level). -/
def goHasSuffix (s suffix : String) : Bool :=
  if suffix.data.length ≤ s.data.length then
    s.data.drop (s.data.length - suffix.data.length) == suffix.data
  else false

/-- One step of Go `strings.Contains`: does `sub` occur at the head of
the first argument? -/
def startsWithList : List Char → List Char → Bool
  | _, [] => true
  | [], _ :: _ => false
  | a :: s, b :: t => a == b && startsWithList s t

/-- Embeds Go `strings.Contains(s, sub)` on the character level:
`sub` occurs at the head of some tail of `s`. -/
def hasSubstringList (sub : List Char) : List Char → Bool
  | [] => startsWithList [] sub
  | c :: rest => startsWithList (c :: rest) sub || hasSubstringList sub rest

/-- Embeds Go `strings.Contains(s, sub)`. -/
def goContains (s sub : String) : Bool :=
  hasSubstringList sub.data s.data

/-- Embeds Go `filepath.Base` (unix rules): the empty path gives ".",
trailing slashes are stripped, the element after the final remaining
slash is returned, and an all-slash path gives "/". -/
def filepathBase (path : String) : String :=
  if path = "" then "."
  else
    let stripped := (path.data.reverse.dropWhile (fun c => c == '/')).reverse
    let base := (stripped.reverse.takeWhile (fun c => c != '/')).reverse
    if base.isEmpty then "/" else ⟨base⟩

/-- Embeds `filepath.Join(downloadDir, filename)` for the arguments the
program passes (a bare language-code directory and a base name), on
which `Clean` is the identity: the two segments joined by a slash. -/
def joinPath (dir name : String) : String := dir ++ "/" ++ name

/-- A token produced by `html.Tokenizer`, as far as the scrape loops
inspect it: start tags and self-closing tags carry their name and
attribute (key, value) list in document order; every other token kind
is ignored by the loops. -/
inductive HtmlToken where
  | startTag (data : String) (attrs : List (String × String))
  | selfClosingTag (data : String) (attrs : List (String × String))
  | otherToken
deriving DecidableEq

/-- The observable result of `http.Get` plus tokenization: either a
transport-level error (`err != nil`), or a response carrying its HTTP
status code and its body as the token stream plus the tokenizer's
terminal condition (`none` for a clean `io.EOF`, `some msg` for a
malformed-markup tokenizer error). -/
inductive FetchResult where
  | transportError (msg : String)
  | response (status : Nat) (toks : List HtmlToken) (terminal : Option String)

/-- The two failure classes of the helpers.go scrapers. -/
inductive ScrapeError where
  | fetchError (msg : String)
  | parseError (msg : String)
deriving DecidableEq

/-- The hrefs `scrape_authors` collects from one token: start tags
named "a", attributes with key "href" whose value ends in "/"
(helpers.go lines 66-75). -/
def authorSelect (t : HtmlToken) : List String :=
  match t with
  | .startTag d attrs =>
    if d == "a" then
      attrs.foldl
        (fun acc a => if a.1 == "href" && goHasSuffix a.2 "/" then acc ++ [a.2] else acc) []
    else []
  | _ => []

/-- The hrefs `scrape_zips` collects from one token: start tags or
self-closing tags named "a", href values ending in ".zip" or "-zip"
(helpers.go lines 98-108). -/
def zipSelect (t : HtmlToken) : List String :=
  match t with
  | .startTag d attrs | .selfClosingTag d attrs =>
    if d == "a" then
      attrs.foldl
        (fun acc a =>
          if a.1 == "href" && (goHasSuffix a.2 ".zip" || goHasSuffix a.2 "-zip") then
            acc ++ [a.2]
          else acc) []
    else []
  | .otherToken => []

/-- The scrapers' tokenizer loop: accumulate the selected hrefs token
by token until the `ErrorToken`; a clean `io.EOF` returns the collected
links, any other tokenizer error is returned as an error. -/
def tokLoop (select : HtmlToken → List String) (acc : List String) :
    List HtmlToken → Option String → Except ScrapeError (List String)
  | [], none => .ok acc
  | [], some m => .error (.parseError m)
  | t :: rest, term => tokLoop select (acc ++ select t) rest term

/-- Embeds `scrape_authors(url string) ([]string, error)` from
helpers.go, as a function of the fetched response. -/
def scrape_authors (r : FetchResult) : Except ScrapeError (List String) :=
  match r with
  | .transportError m => .error (.fetchError m)
  | .response _ toks term => tokLoop authorSelect [] toks term

/-- Embeds `scrape_zips(url string) ([]string, error)` from
helpers.go, as a function of the fetched response. -/
def scrape_zips (r : FetchResult) : Except ScrapeError (List String) :=
  match r with
  | .transportError m => .error (.fetchError m)
  | .response _ toks term => tokLoop zipSelect [] toks term

/-- Modelled from the spec: "a fetch returning an HTTP error status" —
statuses 400 and above. The Go code itself never inspects
`resp.StatusCode`; this definition only names the spec's notion. -/
def isHttpErrorStatus (status : Nat) : Bool := decide (400 ≤ status)

/-- The markup fixture of the spec: five anchors with the given href
values. -/
def fixtureTokens : List HtmlToken :=
  [ .startTag "a" [("href", "/en/authors/a/")],
    .startTag "a" [("href", "/other/x")],
    .startTag "a" [("href", "talk1.zip")],
    .startTag "a" [("href", "talk2-zip")],
    .startTag "a" [("href", "note.txt")] ]

/-- Outcome of one iteration of the download loop: the file already
existed (`skipped`), the transfer succeeded (`downloaded`), the
transfer failed (`failed`), `os.Stat` failed with something other than
`ErrNotExist` (`statFailed`), or `os.Create` failed, which returns from
the language's goroutine (`createAborted`). -/
inductive DlOutcome where
  | skipped
  | downloaded
  | failed
  | statFailed
  | createAborted
deriving DecidableEq

/-- The state the download loop threads: the set of existing local
paths (the filesystem as the program observes it) and the two
per-task accumulator lists. -/
structure DlState where
  fs : List String
  downloads : List String
  errors : List String
deriving DecidableEq

/-- One iteration of the download loop of `run` (src/unnamed/part_000
lines 210-247): derive `filename` with `filepath.Base` and
`path_to_file` with `filepath.Join`; an existing path is skipped with
no other effect; a stat error other than `ErrNotExist` records the
three-part error message; otherwise the destination file is created
(failure returns from the goroutine) and the transfer either records
its error or appends the filename to the downloads accumulator.
`statRes p` models `os.Stat` on an absent path (`none` = `ErrNotExist`,
`some msg` = any other stat error); `createOk` models `os.Create`;
`net t` models `download(t, file)` (`none` = success, `some msg` =
transfer error). -/
def downloadStep (dir : String) (statRes : String → Option String)
    (createOk : String → Bool) (net : String → Option String)
    (st : DlState) (talk : String) : DlState × DlOutcome :=
  if joinPath dir (filepathBase talk) ∈ st.fs then (st, .skipped)
  else
    match statRes (joinPath dir (filepathBase talk)) with
    | some msg =>
      ({ st with errors := st.errors ++ ["Error downloading", talk, msg] }, .statFailed)
    | none =>
      if createOk (joinPath dir (filepathBase talk)) then
        match net talk with
        | some msg =>
          ({ st with
              fs := st.fs ++ [joinPath dir (filepathBase talk)],
              errors := st.errors ++ [msg] }, .failed)
        | none =>
          ({ st with
              fs := st.fs ++ [joinPath dir (filepathBase talk)],
              downloads := st.downloads ++ [filepathBase talk] }, .downloaded)
      else (st, .createAborted)

/-- The download loop over the deduplicated archive links of one
language: a create failure returns from that language's goroutine,
ending its loop early; every other outcome continues with the next
link. -/
def processTalks (dir : String) (statRes : String → Option String)
    (createOk : String → Bool) (net : String → Option String) :
    List String → DlState → DlState × List DlOutcome
  | [], st => (st, [])
  | talk :: rest, st =>
    if (downloadStep dir statRes createOk net st talk).2 = .createAborted then
      ((downloadStep dir statRes createOk net st talk).1,
        [(downloadStep dir statRes createOk net st talk).2])
    else
      ((processTalks dir statRes createOk net rest
          (downloadStep dir statRes createOk net st talk).1).1,
        (downloadStep dir statRes createOk net st talk).2 ::
          (processTalks dir statRes createOk net rest
            (downloadStep dir statRes createOk net st talk).1).2)

/-- The per-run, per-language inputs of the pipeline, with the
network and filesystem modelled as oracles: the result of the single
author-page fetch, whether `os.MkdirAll` on the language directory
succeeds, the per-author archive-page fetches, and the download-loop
oracles of `downloadStep` plus the initially existing local paths. -/
structure LangSpec where
  code : String
  authorsFetch : Except String (List String)
  mkdirOk : Bool
  zipsFetch : String → Except String (List String)
  statRes : String → Option String
  createOk : String → Bool
  net : String → Option String
  fs0 : List String

/-- What one language's pair of tasks contributes to the run: the
discovered author links and the discovery-phase error records, whether
the retrieval task created the language directory, and the downloads,
error records and outcomes of its download loop. -/
structure LangContrib where
  authorLinks : List String
  discoveryErrors : List String
  dirCreated : Bool
  downloads : List String
  taskErrors : List String
  outcomes : List DlOutcome
deriving DecidableEq

/-- Phase one for one language (src/unnamed/part_000 lines 150-167):
on a scrape error the goroutine records the error once and returns,
leaving the language's page list empty; on success it stores the
links. -/
def discoverAuthors (s : LangSpec) : List String × List String :=
  match s.authorsFetch with
  | .error e => ([], [e])
  | .ok links => (links, [])

/-- The author loop of the retrieval task (src/unnamed/part_000 lines
189-206): authors whose URL contains "/<code>/" are scraped for
archive links (a scrape error is recorded and the loop continues);
other authors are skipped with a log line only. -/
def collectZips (code : String) (zipsFetch : String → Except String (List String)) :
    List String → List String × List String
  | [] => ([], [])
  | author :: rest =>
    if goContains author ("/" ++ code ++ "/") then
      match zipsFetch author with
      | .error e =>
        ((collectZips code zipsFetch rest).1, e :: (collectZips code zipsFetch rest).2)
      | .ok zips =>
        (zips ++ (collectZips code zipsFetch rest).1, (collectZips code zipsFetch rest).2)
    else collectZips code zipsFetch rest

/-- The per-language retrieval task (src/unnamed/part_000 lines
173-250): create the language directory — on failure the goroutine
returns at once, contributing nothing further — then collect the
archive links from the discovered authors, deduplicate them, and run
the download loop. -/
def langTask (s : LangSpec) : LangContrib :=
  if s.mkdirOk then
    { authorLinks := (discoverAuthors s).1,
      discoveryErrors := (discoverAuthors s).2,
      dirCreated := true,
      downloads := (processTalks s.code s.statRes s.createOk s.net
        (removeDuplicates (collectZips s.code s.zipsFetch (discoverAuthors s).1).1)
        ⟨s.fs0, [], []⟩).1.downloads,
      taskErrors := (collectZips s.code s.zipsFetch (discoverAuthors s).1).2 ++
        (processTalks s.code s.statRes s.createOk s.net
          (removeDuplicates (collectZips s.code s.zipsFetch (discoverAuthors s).1).1)
          ⟨s.fs0, [], []⟩).1.errors,
      outcomes := (processTalks s.code s.statRes s.createOk s.net
        (removeDuplicates (collectZips s.code s.zipsFetch (discoverAuthors s).1).1)
        ⟨s.fs0, [], []⟩).2 }
  else
    { authorLinks := (discoverAuthors s).1,
      discoveryErrors := (discoverAuthors s).2,
      dirCreated := false,
      downloads := [],
      taskErrors := [],
      outcomes := [] }

/-- Phase two over all languages: one retrieval task per language,
each depending only on its own language's inputs. -/
def pipeline (specs : List LangSpec) : List LangContrib :=
  specs.map langTask

/-- Concrete pipeline input whose single author-page fetch fails. -/
def authorFetchFailSpec : LangSpec :=
  { code := "en", authorsFetch := .error "connection refused", mkdirOk := true,
    zipsFetch := fun _ => .ok [], statRes := fun _ => none,
    createOk := fun _ => true, net := fun _ => none, fs0 := [] }

/-- Concrete pipeline input whose language-directory creation fails. -/
def mkdirFailSpec : LangSpec :=
  { code := "en", authorsFetch := .ok ["/en/x/"], mkdirOk := false,
    zipsFetch := fun _ => .ok [], statRes := fun _ => none,
    createOk := fun _ => true, net := fun _ => none, fs0 := [] }

/-- A `progressMsg` event as sent to the bubbletea model: the language
index, the delta for the completed counter, and the (possibly absent,
i.e. non-positive) total. -/
structure ProgressEvent where
  index : Nat
  value : Int
  total : Int

/-- The progress-related fields of the bubbletea `model`. -/
structure ProgressModel where
  progress : List Int
  totalTasks : List Int
deriving DecidableEq

/-- Embeds the `progressMsg` arm of `model.Update` (styling.go lines
55-62): add the event's value to the indexed completed counter and,
when the event's total is positive, overwrite the indexed total. -/
def updateProgress (m : ProgressModel) (e : ProgressEvent) : ProgressModel :=
  { progress := m.progress.set e.index (m.progress.getD e.index 0 + e.value),
    totalTasks := if 0 < e.total then m.totalTasks.set e.index e.total else m.totalTasks }

/-- Embeds `newModel` (styling.go lines 96-118): six languages, all
completed counters start at 0 and — notably — all totals start at 1. -/
def newProgressModel : ProgressModel :=
  { progress := List.replicate 6 0, totalTasks := List.replicate 6 1 }

/-- The aggregator applying a sequence of progress events in order. -/
def applyEvents (m : ProgressModel) (es : List ProgressEvent) : ProgressModel :=
  es.foldl updateProgress m

/-- Spec-side: the sum of the deltas delivered for language `i`, on
top of the initial value `d`. -/
def sumValuesFrom (i : Nat) (d : Int) (es : List ProgressEvent) : Int :=
  es.foldl (fun a e => if e.index = i then a + e.value else a) d

/-- Spec-side: the last positive total delivered for language `i`, or
the initial total `d` when none is. -/
def lastPosTotalFrom (i : Nat) (d : Int) (es : List ProgressEvent) : Int :=
  es.foldl (fun a e => if e.index = i ∧ 0 < e.total then e.total else a) d

theorem removeDuplicatesAux_eq_dedupFirst (l : List String) :
    ∀ seen acc, removeDuplicatesAux seen acc l = acc ++ dedupFirst seen l := by
  induction l with
  | nil => intro seen acc; simp [removeDuplicatesAux, dedupFirst]
  | cons v rest ih =>
    intro seen acc
    by_cases h : v ∈ seen
    · simp [removeDuplicatesAux, dedupFirst, h, ih]
    · simp [removeDuplicatesAux, dedupFirst, h, ih]

theorem dedupFirst_eq_firstOccurrencesAux (l : List String) :
    ∀ seen earlier, (∀ x, x ∈ seen ↔ x ∈ earlier) →
      dedupFirst seen l = firstOccurrencesAux earlier l := by
  induction l with
  | nil => intro seen earlier _; simp [dedupFirst, firstOccurrencesAux]
  | cons v rest ih =>
    intro seen earlier hmem
    by_cases h : v ∈ seen
    · have h' : v ∈ earlier := (hmem v).1 h
      rw [dedupFirst, firstOccurrencesAux, if_pos h, if_pos h']
      exact ih seen (earlier ++ [v]) (by
        intro x
        rw [hmem x, List.mem_append, List.mem_singleton]
        constructor
        · exact Or.inl
        · rintro (hx | rfl)
          · exact hx
          · exact h')
    · have h' : v ∉ earlier := fun hx => h ((hmem v).2 hx)
      rw [dedupFirst, firstOccurrencesAux, if_neg h, if_neg h']
      congr 1
      exact ih (v :: seen) (earlier ++ [v]) (by
        intro x
        simp only [List.mem_cons, List.mem_append, List.mem_singleton, hmem x]
        tauto)

theorem dedupFirst_sublist (l : List String) :
    ∀ seen, (dedupFirst seen l).Sublist l := by
  induction l with
  | nil => intro seen; simp [dedupFirst]
  | cons v rest ih =>
    intro seen
    rw [dedupFirst]
    split
    · exact (ih seen).cons v
    · exact (ih (v :: seen)).cons₂ v

theorem mem_dedupFirst (l : List String) :
    ∀ seen x, x ∈ dedupFirst seen l ↔ x ∈ l ∧ x ∉ seen := by
  induction l with
  | nil => intro seen x; simp [dedupFirst]
  | cons v rest ih =>
    intro seen x
    rw [dedupFirst]
    split
    · rename_i hv
      rw [ih seen x, List.mem_cons]
      constructor
      · rintro ⟨hl, hs⟩; exact ⟨Or.inr hl, hs⟩
      · rintro ⟨hl | hl, hs⟩
        · subst hl; exact absurd hv hs
        · exact ⟨hl, hs⟩
    · rename_i hv
      simp only [List.mem_cons, ih (v :: seen) x, List.mem_cons]
      constructor
      · rintro (rfl | ⟨hl, hs⟩)
        · exact ⟨Or.inl rfl, hv⟩
        · exact ⟨Or.inr hl, fun hx => hs (Or.inr hx)⟩
      · rintro ⟨hl | hl, hs⟩
        · exact Or.inl hl
        · by_cases hxv : x = v
          · exact Or.inl hxv
          · exact Or.inr ⟨hl, fun hx => (by
              rcases hx with h1 | h2
              · exact hxv h1
              · exact hs h2)⟩

theorem dedupFirst_nodup (l : List String) :
    ∀ seen, (dedupFirst seen l).Nodup := by
  induction l with
  | nil => intro seen; simp [dedupFirst]
  | cons v rest ih =>
    intro seen
    rw [dedupFirst]
    split
    · exact ih seen
    · refine List.nodup_cons.2 ⟨?_, ih (v :: seen)⟩
      intro hv
      exact ((mem_dedupFirst rest (v :: seen) v).1 hv).2 (List.mem_cons_self v seen)

theorem dedupFirst_eq_self (l : List String) :
    ∀ seen, l.Nodup → (∀ x ∈ l, x ∉ seen) → dedupFirst seen l = l := by
  induction l with
  | nil => intro seen _ _; simp [dedupFirst]
  | cons v rest ih =>
    intro seen hnd hdisj
    have hv : v ∉ seen := hdisj v (List.mem_cons_self v rest)
    rw [dedupFirst, if_neg hv]
    congr 1
    refine ih (v :: seen) (List.nodup_cons.1 hnd).2 ?_
    intro x hx
    rw [List.mem_cons]
    rintro (rfl | hs)
    · exact (List.nodup_cons.1 hnd).1 hx
    · exact hdisj x (List.mem_cons_of_mem v hx) hs

theorem removeDuplicates_eq_dedupFirst (S : List String) :
    removeDuplicates S = dedupFirst [] S := by
  rw [removeDuplicates, removeDuplicatesAux_eq_dedupFirst, List.nil_append]

/-- **C1.** `removeDuplicates` returns the subsequence of `S` restricted
to the first occurrence of each element (comparing by exact string
equality), preserving relative order; the result has no repeated
elements, the same members as `S`, and length at most that of `S`. -/
theorem removeDuplicates_first_occurrence_spec (S : List String) :
    removeDuplicates S = firstOccurrences S ∧
    (removeDuplicates S).Sublist S ∧
    (removeDuplicates S).Nodup ∧
    (∀ x, x ∈ removeDuplicates S ↔ x ∈ S) ∧
    (removeDuplicates S).length ≤ S.length := by
  rw [removeDuplicates_eq_dedupFirst]
  refine ⟨?_, dedupFirst_sublist S [], dedupFirst_nodup S [], ?_, ?_⟩
  · exact dedupFirst_eq_firstOccurrencesAux S [] [] (fun x => Iff.rfl)
  · intro x
    rw [mem_dedupFirst]
    simp
  · exact (dedupFirst_sublist S []).length_le

/-- **C8.** Deduplication is idempotent:
`removeDuplicates (removeDuplicates x) = removeDuplicates x`. -/
theorem removeDuplicates_idempotent (x : List String) :
    removeDuplicates (removeDuplicates x) = removeDuplicates x := by
  rw [removeDuplicates_eq_dedupFirst (removeDuplicates x)]
  exact dedupFirst_eq_self (removeDuplicates x) []
    (removeDuplicates_first_occurrence_spec x).2.2.1
    (fun x _ h => (List.not_mem_nil x) h)

theorem tokLoop_eof (select : HtmlToken → List String) (toks : List HtmlToken) :
    ∀ acc, tokLoop select acc toks none = .ok (acc ++ toks.flatMap select) := by
  induction toks with
  | nil => intro acc; simp [tokLoop]
  | cons t rest ih =>
    intro acc
    rw [tokLoop, ih (acc ++ select t), List.flatMap_cons, List.append_assoc]

theorem tokLoop_parse_error (select : HtmlToken → List String) (toks : List HtmlToken)
    (m : String) : ∀ acc, tokLoop select acc toks (some m) = .error (.parseError m) := by
  induction toks with
  | nil => intro acc; simp [tokLoop]
  | cons t rest ih => intro acc; rw [tokLoop, ih]

theorem goHasSuffix_iff (s suffix : String) :
    goHasSuffix s suffix = true ↔ ∃ t : String, s = t ++ suffix := by
  rw [goHasSuffix]
  split
  · rename_i hle
    rw [beq_iff_eq]
    constructor
    · intro hdrop
      refine ⟨⟨s.data.take (s.data.length - suffix.data.length)⟩, ?_⟩
      apply String.ext
      show s.data = s.data.take (s.data.length - suffix.data.length) ++ suffix.data
      have h3 := List.take_append_drop (s.data.length - suffix.data.length) s.data
      rw [hdrop] at h3
      exact h3.symm
    · rintro ⟨t, rfl⟩
      rw [String.data_append, List.length_append, Nat.add_sub_cancel,
        List.drop_left]
  · rename_i hle
    constructor
    · intro h; exact absurd h (by simp)
    · rintro ⟨t, rfl⟩
      exact absurd (by rw [String.data_append, List.length_append]; omega) hle

/-- **C3 counterexample.** The scrapers never inspect the HTTP status
code: a response with error status 404 (or 500) and a clean body is
processed as a success, not as a `FetchError`, contradicting the claim
that an HTTP error status yields a `FetchError`. -/
theorem scrape_status_never_checked :
    isHttpErrorStatus 404 = true ∧
    scrape_authors (.response 404 [] none) = .ok [] ∧
    scrape_zips (.response 500 [.startTag "a" [("href", "x.zip")]] none) = .ok ["x.zip"] := by
  refine ⟨by decide, rfl, ?_⟩
  rw [scrape_zips, tokLoop, tokLoop]
  rfl

/-- **C3 (amended).** The link extractors return the ordered sequence
of anchor hrefs satisfying their predicate, in document order; they
fail with `FetchError` exactly on a transport-level request failure
(HTTP error statuses are not detected — the result is independent of
the status code), fail with `ParseError` exactly on a malformed markup
stream other than a clean end-of-document, and an empty extraction is
a valid success. -/
theorem scrape_error_classification :
    (∀ m, scrape_authors (.transportError m) = .error (.fetchError m)) ∧
    (∀ status toks, scrape_authors (.response status toks none) = .ok (toks.flatMap authorSelect)) ∧
    (∀ status toks m,
      scrape_authors (.response status toks (some m)) = .error (.parseError m)) ∧
    (∀ m, scrape_zips (.transportError m) = .error (.fetchError m)) ∧
    (∀ status toks, scrape_zips (.response status toks none) = .ok (toks.flatMap zipSelect)) ∧
    (∀ status toks m, scrape_zips (.response status toks (some m)) = .error (.parseError m)) := by
  refine ⟨fun m => rfl, fun status toks => ?_, fun status toks m => ?_,
    fun m => rfl, fun status toks => ?_, fun status toks m => ?_⟩
  · rw [scrape_authors, tokLoop_eof, List.nil_append]
  · rw [scrape_authors, tokLoop_parse_error]
  · rw [scrape_zips, tokLoop_eof, List.nil_append]
  · rw [scrape_zips, tokLoop_parse_error]

/-- **C6.** The author predicate accepts exactly the href values ending
in "/" and the archive predicate accepts exactly those ending in ".zip"
or "-zip"; on the five-anchor fixture the author scraper selects
exactly ["/en/authors/a/"] and the archive scraper exactly
["talk1.zip", "talk2-zip"]. -/
theorem predicates_select_expected :
    scrape_authors (.response 200 fixtureTokens none) = .ok ["/en/authors/a/"] ∧
    scrape_zips (.response 200 fixtureTokens none) = .ok ["talk1.zip", "talk2-zip"] ∧
    (∀ s : String, goHasSuffix s "/" = true ↔ ∃ t : String, s = t ++ "/") ∧
    (∀ s : String, (goHasSuffix s ".zip" || goHasSuffix s "-zip") = true ↔
      ((∃ t : String, s = t ++ ".zip") ∨ ∃ t : String, s = t ++ "-zip")) := by
  refine ⟨by rfl, by rfl, fun s => goHasSuffix_iff s "/", fun s => ?_⟩
  rw [Bool.or_eq_true, goHasSuffix_iff, goHasSuffix_iff]

theorem downloadStep_skipped_of_mem (dir : String) (statRes : String → Option String)
    (createOk : String → Bool) (net : String → Option String) (st : DlState) (talk : String)
    (h : joinPath dir (filepathBase talk) ∈ st.fs) :
    downloadStep dir statRes createOk net st talk = (st, .skipped) := by
  rw [downloadStep, if_pos h]

theorem processTalks_all_skipped (dir : String) (statRes : String → Option String)
    (createOk : String → Bool) (net : String → Option String) (L : List String) :
    ∀ st : DlState, (∀ t ∈ L, joinPath dir (filepathBase t) ∈ st.fs) →
      processTalks dir statRes createOk net L st = (st, List.replicate L.length .skipped) := by
  induction L with
  | nil => intro st _; rfl
  | cons t rest ih =>
    intro st h
    have h0 := downloadStep_skipped_of_mem dir statRes createOk net st t
      (h t (List.mem_cons_self t rest))
    rw [processTalks, h0]
    simp only [List.length_cons, List.replicate_succ]
    rw [if_neg (by simp)]
    rw [ih st (fun u hu => h u (List.mem_cons_of_mem t hu))]

/-- **C2.** A link whose derived local path already exists is a no-op
skip: the download step leaves the state (filesystem and both
accumulators) unchanged and reports `skipped`, for every network and
filesystem oracle (so no fetch can be observed); consequently a re-run
in which every link's derived path already exists yields only
`skipped` outcomes — zero `downloaded` — and an unchanged state. -/
theorem downloader_skip_is_noop :
    (∀ (dir : String) (statRes : String → Option String) (createOk : String → Bool)
      (net : String → Option String) (st : DlState) (talk : String),
      joinPath dir (filepathBase talk) ∈ st.fs →
      downloadStep dir statRes createOk net st talk = (st, .skipped)) ∧
    (∀ (dir : String) (statRes : String → Option String) (createOk : String → Bool)
      (net : String → Option String) (L : List String) (st : DlState),
      (∀ t ∈ L, joinPath dir (filepathBase t) ∈ st.fs) →
      processTalks dir statRes createOk net L st = (st, List.replicate L.length .skipped)) :=
  ⟨downloadStep_skipped_of_mem,
   fun dir statRes createOk net L st h => processTalks_all_skipped dir statRes createOk net L st h⟩

/-- Witness for `downloader_skip_is_noop`: a two-link run over an
already-populated directory only skips. -/
theorem downloader_skip_is_noop_witness :
    processTalks "en" (fun _ => none) (fun _ => true) (fun _ => none)
      ["http://h/a.zip", "http://h/b.zip"] ⟨["en/a.zip", "en/b.zip"], [], []⟩ =
      (⟨["en/a.zip", "en/b.zip"], [], []⟩, [.skipped, .skipped]) :=
  downloader_skip_is_noop.2 "en" (fun _ => none) (fun _ => true) (fun _ => none)
    ["http://h/a.zip", "http://h/b.zip"] ⟨["en/a.zip", "en/b.zip"], [], []⟩ (by decide)

theorem downloadStep_fs_mono (dir : String) (statRes : String → Option String)
    (createOk : String → Bool) (net : String → Option String) (st : DlState)
    (talk : String) (p : String) (h : p ∈ st.fs) :
    p ∈ (downloadStep dir statRes createOk net st talk).1.fs := by
  rw [downloadStep]
  split
  · exact h
  · split
    · exact h
    · split
      · split
        · exact List.mem_append_left _ h
        · exact List.mem_append_left _ h
      · exact h

theorem downloadStep_downloaded_mem (dir : String) (statRes : String → Option String)
    (createOk : String → Bool) (net : String → Option String) (st : DlState)
    (talk : String) (h : (downloadStep dir statRes createOk net st talk).2 = .downloaded) :
    joinPath dir (filepathBase talk) ∈ (downloadStep dir statRes createOk net st talk).1.fs := by
  rcases hEq : downloadStep dir statRes createOk net st talk with ⟨st', o⟩
  rw [hEq] at h
  simp only at h
  subst h
  rw [downloadStep] at hEq
  split at hEq
  · simp at hEq
  · split at hEq
    · simp at hEq
    · split at hEq
      · split at hEq
        · simp at hEq
        · simp only [Prod.mk.injEq] at hEq
          rw [← hEq.1]
          simp
      · simp at hEq

theorem processTalks_mem_skipped (dir : String) (statRes : String → Option String)
    (createOk : String → Bool) (net : String → Option String) (L : List String) :
    ∀ (st : DlState) (p : String), p ∈ st.fs →
      ∀ (k : Nat) (o : DlOutcome) (t : String),
        (processTalks dir statRes createOk net L st).2[k]? = some o →
        L[k]? = some t → joinPath dir (filepathBase t) = p → o = .skipped := by
  induction L with
  | nil =>
    intro st p hp k o t h1 h2 h3
    simp [processTalks] at h1
  | cons a rest ih =>
    intro st p hp k o t h1 h2 h3
    by_cases hab : (downloadStep dir statRes createOk net st a).2 = .createAborted
    · rw [processTalks, if_pos hab] at h1
      cases k with
      | zero =>
        simp only [List.getElem?_cons_zero, Option.some.injEq] at h1 h2
        subst h2
        rw [downloadStep_skipped_of_mem dir statRes createOk net st a (by rw [h3]; exact hp)]
          at hab
        simp at hab
      | succ k => simp at h1
    · rw [processTalks, if_neg hab] at h1
      cases k with
      | zero =>
        simp only [List.getElem?_cons_zero, Option.some.injEq] at h1 h2
        subst h2
        rw [downloadStep_skipped_of_mem dir statRes createOk net st a (by rw [h3]; exact hp)]
          at h1
        exact h1.symm
      | succ k =>
        simp only [List.getElem?_cons_succ] at h1 h2
        exact ih (downloadStep dir statRes createOk net st a).1 p
          (downloadStep_fs_mono dir statRes createOk net st a p hp) k o t h1 h2 h3

/-- **C10.** Within one language and one run, two links with the same
final path segment resolve to the same local path, and once the
earlier one has been downloaded, every later link with that basename is
reported `skipped` — it is never downloaded or overwritten again. -/
theorem same_basename_later_skipped :
    ∀ (dir : String) (statRes : String → Option String) (createOk : String → Bool)
      (net : String → Option String) (L : List String) (st : DlState)
      (i j : Nat) (a b : String) (oj : DlOutcome),
      i < j → L[i]? = some a → L[j]? = some b →
      filepathBase a = filepathBase b →
      (processTalks dir statRes createOk net L st).2[i]? = some .downloaded →
      (processTalks dir statRes createOk net L st).2[j]? = some oj →
      joinPath dir (filepathBase a) = joinPath dir (filepathBase b) ∧ oj = .skipped := by
  intro dir statRes createOk net L
  induction L with
  | nil =>
    intro st i j a b oj hij h1 h2 h3 h4 h5
    simp at h1
  | cons t rest ih =>
    intro st i j a b oj hij h1 h2 h3 h4 h5
    refine ⟨by rw [h3], ?_⟩
    by_cases hab : (downloadStep dir statRes createOk net st t).2 = .createAborted
    · rw [processTalks, if_pos hab] at h4
      cases i with
      | zero =>
        simp only [List.getElem?_cons_zero, Option.some.injEq] at h4
        rw [h4] at hab
        simp at hab
      | succ i => simp at h4
    · rw [processTalks, if_neg hab] at h4 h5
      cases i with
      | zero =>
        simp only [List.getElem?_cons_zero, Option.some.injEq] at h4 h1
        obtain ⟨j', rfl⟩ : ∃ j', j = j' + 1 := ⟨j - 1, by omega⟩
        simp only [List.getElem?_cons_succ] at h5 h2
        have hpmem := downloadStep_downloaded_mem dir statRes createOk net st t h4
        exact processTalks_mem_skipped dir statRes createOk net rest
          (downloadStep dir statRes createOk net st t).1
          (joinPath dir (filepathBase t)) hpmem j' oj b h5 h2
          (by rw [← h3, h1])
      | succ i' =>
        obtain ⟨j', rfl⟩ : ∃ j', j = j' + 1 := ⟨j - 1, by omega⟩
        simp only [List.getElem?_cons_succ] at h1 h2 h4 h5
        exact (ih (downloadStep dir statRes createOk net st t).1 i' j' a b oj
          (by omega) h1 h2 h3 h4 h5).2

/-- Witness for `same_basename_later_skipped`: two links sharing the
basename "a.zip"; the first is downloaded and the second skipped. -/
theorem same_basename_later_skipped_witness :
    (processTalks "en" (fun _ => none) (fun _ => true) (fun _ => none)
      ["http://u/a.zip", "http://v/a.zip"] ⟨[], [], []⟩).2[0]? = some .downloaded ∧
    joinPath "en" (filepathBase "http://u/a.zip") =
      joinPath "en" (filepathBase "http://v/a.zip") ∧ DlOutcome.skipped = DlOutcome.skipped :=
  ⟨by decide,
   same_basename_later_skipped "en" (fun _ => none) (fun _ => true) (fun _ => none)
    ["http://u/a.zip", "http://v/a.zip"] ⟨[], [], []⟩ 0 1 "http://u/a.zip" "http://v/a.zip"
    .skipped (by decide) (by decide) (by decide) (by decide) (by decide) (by decide)⟩

theorem langTask_mkdir_fail (s : LangSpec) (h : s.mkdirOk = false) :
    langTask s =
      { authorLinks := (discoverAuthors s).1, discoveryErrors := (discoverAuthors s).2,
        dirCreated := false, downloads := [], taskErrors := [], outcomes := [] } := by
  rw [langTask, if_neg (by simp [h])]

/-- **C4.** A language whose directory creation fails contributes only
its discovery results — its retrieval task returns at once with no
downloads and no further errors — while the pipeline still produces
one contribution per language, and every language's contribution is
exactly its own task's result, unaffected by the failing language. -/
theorem mkdir_failure_isolated :
    ∀ (specs : List LangSpec) (i : Nat) (s : LangSpec),
      specs[i]? = some s → s.mkdirOk = false →
      (pipeline specs)[i]? = some
        { authorLinks := (discoverAuthors s).1, discoveryErrors := (discoverAuthors s).2,
          dirCreated := false, downloads := [], taskErrors := [], outcomes := [] } ∧
      (pipeline specs).length = specs.length ∧
      (∀ (j : Nat) (u : LangSpec), specs[j]? = some u →
        (pipeline specs)[j]? = some (langTask u)) := by
  intro specs i s hi hmk
  refine ⟨?_, by simp [pipeline], fun j u hj => ?_⟩
  · rw [pipeline, List.getElem?_map, hi]
    simp [langTask_mkdir_fail s hmk]
  · rw [pipeline, List.getElem?_map, hj]
    rfl

/-- Witness for `mkdir_failure_isolated`. -/
theorem mkdir_failure_isolated_witness :
    (pipeline [mkdirFailSpec])[0]? = some
      { authorLinks := ["/en/x/"], discoveryErrors := [], dirCreated := false,
        downloads := [], taskErrors := [], outcomes := [] } :=
  (mkdir_failure_isolated [mkdirFailSpec] 0 mkdirFailSpec rfl rfl).1

/-- **C5 counterexample.** A language whose single author-page fetch
fails is not dropped before phase two: on the concrete failing input
its retrieval task still runs — it creates the language directory
(`dirCreated = true`) — even though discovery produced zero author
links and one error record. -/
theorem author_fetch_fail_not_dropped :
    (pipeline [authorFetchFailSpec])[0]? = some
      { authorLinks := [], discoveryErrors := ["connection refused"], dirCreated := true,
        downloads := [], taskErrors := [], outcomes := [] } := by
  rfl

/-- **C5 (amended).** A language whose single author-page fetch fails
ends discovery with zero author links and exactly one recorded error;
it is not dropped from phase two — its retrieval task still runs
(creating the language directory when directory creation succeeds) but
performs no archive scrapes and no downloads — and every other
language's contribution is exactly its own task's result. -/
theorem author_fetch_failure_isolated :
    ∀ (specs : List LangSpec) (i : Nat) (s : LangSpec) (e : String),
      specs[i]? = some s → s.authorsFetch = .error e →
      (pipeline specs)[i]? = some
        { authorLinks := [], discoveryErrors := [e], dirCreated := s.mkdirOk,
          downloads := [], taskErrors := [], outcomes := [] } ∧
      (∀ (j : Nat) (u : LangSpec), j ≠ i → specs[j]? = some u →
        (pipeline specs)[j]? = some (langTask u)) := by
  intro specs i s e hi he
  have hd : discoverAuthors s = ([], [e]) := by rw [discoverAuthors, he]
  constructor
  · rw [pipeline, List.getElem?_map, hi]
    by_cases hmk : s.mkdirOk = true
    · simp [langTask, hmk, hd, collectZips, removeDuplicates, removeDuplicatesAux, processTalks]
    · simp [langTask, hmk, hd, Bool.eq_false_iff.2 hmk]
  · intro j u _ hj
    rw [pipeline, List.getElem?_map, hj]
    rfl

/-- Witness for `author_fetch_failure_isolated`. -/
theorem author_fetch_failure_isolated_witness :
    (pipeline [authorFetchFailSpec, mkdirFailSpec])[0]? = some
      { authorLinks := [], discoveryErrors := ["connection refused"], dirCreated := true,
        downloads := [], taskErrors := [], outcomes := [] } :=
  (author_fetch_failure_isolated [authorFetchFailSpec, mkdirFailSpec] 0
    authorFetchFailSpec "connection refused" rfl rfl).1

theorem applyEvents_progress_getD :
    ∀ (es : List ProgressEvent) (m : ProgressModel) (i : Nat), i < m.progress.length →
      (applyEvents m es).progress.getD i 0 = sumValuesFrom i (m.progress.getD i 0) es := by
  intro es
  induction es with
  | nil => intro m i hi; rfl
  | cons e rest ih =>
    intro m i hi
    have hlen : (updateProgress m e).progress.length = m.progress.length := by
      simp [updateProgress]
    have hstep : (updateProgress m e).progress.getD i 0 =
        if e.index = i then m.progress.getD i 0 + e.value else m.progress.getD i 0 := by
      rw [updateProgress]
      by_cases hei : e.index = i
      · subst hei
        rw [if_pos rfl]
        simp [List.getD_eq_getElem?_getD, List.getElem?_set_eq_of_lt, hi]
      · rw [if_neg hei]
        simp [List.getD_eq_getElem?_getD, List.getElem?_set_ne, hei]
    show (applyEvents (updateProgress m e) rest).progress.getD i 0 = _
    rw [ih (updateProgress m e) i (by rw [hlen]; exact hi), hstep]
    rfl

theorem applyEvents_totals_getD :
    ∀ (es : List ProgressEvent) (m : ProgressModel) (i : Nat), i < m.totalTasks.length →
      (applyEvents m es).totalTasks.getD i 0 =
        lastPosTotalFrom i (m.totalTasks.getD i 0) es := by
  intro es
  induction es with
  | nil => intro m i hi; rfl
  | cons e rest ih =>
    intro m i hi
    have hlen : (updateProgress m e).totalTasks.length = m.totalTasks.length := by
      rw [updateProgress]
      split <;> simp
    have hstep : (updateProgress m e).totalTasks.getD i 0 =
        if e.index = i ∧ 0 < e.total then e.total else m.totalTasks.getD i 0 := by
      rw [updateProgress]
      by_cases ht : 0 < e.total
      · rw [if_pos ht]
        by_cases hei : e.index = i
        · subst hei
          rw [if_pos ⟨rfl, ht⟩]
          simp [List.getD_eq_getElem?_getD, List.getElem?_set_eq_of_lt, hi]
        · rw [if_neg (fun hc => hei hc.1)]
          simp [List.getD_eq_getElem?_getD, List.getElem?_set_ne, hei]
      · rw [if_neg ht, if_neg (fun hc => ht hc.2)]
    show (applyEvents (updateProgress m e) rest).totalTasks.getD i 0 = _
    rw [ih (updateProgress m e) i (by rw [hlen]; exact hi), hstep]
    rfl

/-- **C7 counterexample.** In `newModel` every language's total starts
at 1, not 0; `Update` overwrites the total on every event with a
positive total, so it can be set twice and decrease (3 then 2 leaves
2); and nothing enforces `completed ≤ total` (a single event with
delta 5 and total 1 leaves completed 5 > total 1). -/
theorem progress_total_initial_and_mutation_cx :
    newProgressModel.totalTasks.getD 0 0 = 1 ∧
    (applyEvents newProgressModel [⟨0, 0, 3⟩, ⟨0, 0, 2⟩]).totalTasks.getD 0 0 = 2 ∧
    (applyEvents newProgressModel [⟨0, 5, 1⟩]).progress.getD 0 0 = 5 ∧
    (applyEvents newProgressModel [⟨0, 5, 1⟩]).totalTasks.getD 0 0 = 1 := by
  decide

/-- **C7 (amended).** Per language, the completed counter starts at 0
and the total starts at 1 (not 0); after any event sequence the
completed counter equals the sum of the deltas delivered for that
language, and the total equals the last positive total delivered for
it (or the initial 1): the total is overwritten on every positive
total, may be set repeatedly, may decrease, and `completed ≤ total` is
not enforced. -/
theorem progress_model_characterization :
    ∀ (es : List ProgressEvent) (i : Nat), i < 6 →
      newProgressModel.progress.getD i 0 = 0 ∧
      newProgressModel.totalTasks.getD i 0 = 1 ∧
      (applyEvents newProgressModel es).progress.getD i 0 = sumValuesFrom i 0 es ∧
      (applyEvents newProgressModel es).totalTasks.getD i 0 = lastPosTotalFrom i 1 es := by
  intro es i hi
  have h0 : newProgressModel.progress.getD i 0 = 0 := by
    interval_cases i <;> rfl
  have h1 : newProgressModel.totalTasks.getD i 0 = 1 := by
    interval_cases i <;> rfl
  refine ⟨h0, h1, ?_, ?_⟩
  · rw [applyEvents_progress_getD es newProgressModel i
      (by simpa [newProgressModel] using hi), h0]
  · rw [applyEvents_totals_getD es newProgressModel i
      (by simpa [newProgressModel] using hi), h1]

/-- Witness for `progress_model_characterization`. -/
theorem progress_model_characterization_witness :
    (0 : Nat) < 6 ∧
    (applyEvents newProgressModel [⟨0, 1, 2⟩]).progress.getD 0 0 = sumValuesFrom 0 0 [⟨0, 1, 2⟩] :=
  ⟨by decide, (progress_model_characterization [⟨0, 1, 2⟩] 0 (by decide)).2.2.1⟩
